import Mathlib

/-!
Shallow embedding of the orchestration core of `src/src/phoneflasher.py`
(PhoneFlasher Mac): the external-tool invoker (`_run_cmd`), the tool
wrappers (`_adb_command`, `_fastboot_command`), the user actions
(`fastboot_wipe`, `flash_selected` / `_flash_images`, `_refresh_devices`),
the downloader (`_download_first_available` / `_download_file`) and the
archive installer (`_download_platform_tools` extraction step /
`_ensure_executable`).

Effects are made explicit: subprocess execution is an oracle in a `World`
(which files exist, and what a spawned process prints), network transfers
are an oracle mapping each URL to its response, and every observable action
(log line, message box, subprocess spawn, network connection) is recorded
in an event trace `List Ev` in program order.
-/

namespace PhoneFlasher

/-- Result of a completed subprocess (`subprocess.run` with
`capture_output=True, text=True, check=False`): captured stdout, stderr
and the exit status. -/
structure ProcResult where
  stdout : String
  stderr : String
  exitCode : Int
deriving Repr, DecidableEq

/-- The environment a command-running action sees: which filesystem paths
exist, and the result a spawned process would produce for a given argument
vector. `subprocess.run` raises `FileNotFoundError` (no process is created)
exactly when the executable path does not exist. -/
structure World where
  fileExists : String → Bool
  proc : List String → ProcResult

/-- Observable events, in program order: a log line put on the log queue, a
message box shown to the user, a subprocess actually spawned with its full
argument vector, and a network connection opened to a URL. -/
inductive Ev where
  | log (msg : String)
  | msgbox (msg : String)
  | spawn (cmd : List String)
  | net (url : String)
deriving Repr, DecidableEq

/-- The whitespace characters Python's `str.strip()` removes:
space, tab, newline, carriage return, vertical tab, form feed. -/
def isPyWs (c : Char) : Bool :=
  c = ' ' || c = '\t' || c = '\n' || c = '\r' || c = '\x0b' || c = '\x0c'

/-- Embedding of Python's `str.strip()`: drop whitespace from both ends. -/
def pyStrip (s : String) : String :=
  String.mk (((s.data.dropWhile isPyWs).reverse.dropWhile isPyWs).reverse)

/-- The subprocess spawns recorded in a trace, in order, each with its full
argument vector. -/
def spawns (evs : List Ev) : List (List String) :=
  evs.filterMap fun e =>
    match e with
    | Ev.spawn c => some c
    | _ => none

/-- Path of the adb executable, `TOOLS_DIR / "platform-tools" / "adb"`
(source `platform_tools_paths`). -/
def adbPath : String := "tools/platform-tools/adb"

/-- Path of the fastboot executable,
`TOOLS_DIR / "platform-tools" / "fastboot"` (source
`platform_tools_paths`). -/
def fastbootPath : String := "tools/platform-tools/fastboot"

/-- Embedding of `_run_cmd(cmd)`: logs the literal command line, spawns the
process; on `FileNotFoundError` (executable missing — no process is
created) logs a not-found line and returns the empty string; otherwise
returns `(stdout + stderr).strip()`, logging it when non-empty. The exit
code is never inspected. All callers pass a non-empty `cmd`; the `[]` case
is the no-spawn failure branch. -/
def runCmd (w : World) (cmd : List String) : String × List Ev :=
  let runLog := Ev.log ("Running: " ++ String.intercalate " " cmd)
  match cmd with
  | [] => ("", [runLog, Ev.log "Command not found."])
  | exe :: _ =>
    if w.fileExists exe then
      let r := w.proc cmd
      let output := pyStrip (r.stdout ++ r.stderr)
      (output, [runLog, Ev.spawn cmd] ++ (if output = "" then [] else [Ev.log output]))
    else ("", [runLog, Ev.log "Command not found."])

/-- Embedding of `_adb_command(*args)`: if adb is missing, log an
install-first message and stop; otherwise run it (return value of
`_run_cmd` is discarded, the trace is kept). -/
def adb_command (w : World) (args : List String) : List Ev :=
  if w.fileExists adbPath then (runCmd w (adbPath :: args)).2
  else [Ev.log "ADB not found. Download platform-tools first."]

/-- Embedding of `_fastboot_command(*args)`: if fastboot is missing, log an
install-first message and stop; otherwise run it. -/
def fastboot_command (w : World) (args : List String) : List Ev :=
  if w.fileExists fastbootPath then (runCmd w (fastbootPath :: args)).2
  else [Ev.log "Fastboot not found. Download platform-tools first."]

/-- Embedding of `fastboot_wipe()`: `confirm` is the user's answer to the
"This will wipe user data. Continue?" yes/no dialog; a negative answer
returns at once, an affirmative one runs `_fastboot_command("-w")`. -/
def fastboot_wipe (w : World) (confirm : Bool) : List Ev :=
  if confirm then fastboot_command w ["-w"] else []

/-- Embedding of the selection-building loop of `flash_selected()`: the
four entry widgets are iterated in construction order boot, recovery,
system, vendor; each value is stripped and kept only when non-empty. -/
def build_selections (boot recovery system vendor : String) : List (String × String) :=
  [("boot", boot), ("recovery", recovery), ("system", system), ("vendor", vendor)].filterMap
    fun kv => if pyStrip kv.2 = "" then none else some (kv.1, pyStrip kv.2)

/-- Embedding of `_flash_images(selections)`: for each entry in order, log
a per-partition line and invoke `_fastboot_command("flash", partition,
path)` (its outcome is ignored); afterwards log the completion line. -/
def flash_images (w : World) (sels : List (String × String)) : List Ev :=
  (sels.map fun pr =>
      Ev.log ("Flashing " ++ pr.1 ++ " from " ++ pr.2 ++ "...")
        :: fastboot_command w ["flash", pr.1, pr.2]).flatten
    ++ [Ev.log "Flash sequence complete."]

/-- Embedding of `flash_selected()`: build the selection from the four
entry texts; an empty selection shows an info box and returns before any
command is issued, otherwise `_flash_images` runs. -/
def flash_selected (w : World) (boot recovery system vendor : String) : List Ev :=
  let sels := build_selections boot recovery system vendor
  if sels = [] then [Ev.msgbox "Select at least one image to flash."]
  else flash_images w sels

/-- Boolean test that `needle` is a prefix of `hay` (character lists). -/
def isPrefList : List Char → List Char → Bool
  | [], _ => true
  | _ :: _, [] => false
  | a :: as, b :: bs => a = b && isPrefList as bs

/-- Boolean test that `needle` occurs contiguously inside `hay`: the
embedding of Python's substring operator `needle in hay`. -/
def hasSubstr (needle : List Char) : List Char → Bool
  | [] => isPrefList needle []
  | c :: t => isPrefList needle (c :: t) || hasSubstr needle t

/-- Embedding of the adb classification line of `_refresh_devices`:
`"No device" if "\tdevice" not in adb_out else "Device connected"`. -/
def adb_status_of (adb_out : String) : String :=
  if hasSubstr ("\tdevice".data) adb_out.data = false then "No device"
  else "Device connected"

/-- Embedding of the fastboot classification line of `_refresh_devices`:
`"No device" if not fastboot_out.strip() else "Device connected"`. -/
def fastboot_status_of (fastboot_out : String) : String :=
  if pyStrip fastboot_out = "" then "No device" else "Device connected"

/-- Embedding of `_refresh_devices`: each tool is run with `devices` only
when its executable exists (otherwise its output is taken empty), and the
two raw outputs are classified. -/
def refresh_devices (w : World) : String × String :=
  let adb_out := if w.fileExists adbPath then (runCmd w [adbPath, "devices"]).1 else ""
  let fastboot_out :=
    if w.fileExists fastbootPath then (runCmd w [fastbootPath, "devices"]).1 else ""
  (adb_status_of adb_out, fastboot_status_of fastboot_out)

/-- A connection that `urllib.request.urlopen` opened successfully:
`totalHeader` is the parsed `Content-Length` (0 when absent or
non-numeric, as in the source's `int(total_header) if ... else 0`);
`chunks` are the byte chunks `response.read` delivered before either EOF
or an exception; `raises = true` means the transfer raised after those
chunks (they were already written); `excMsg` is that exception's text. -/
structure Response where
  chunks : List (List Nat)
  raises : Bool
  excMsg : String
  totalHeader : Nat
deriving Repr, DecidableEq

/-- Embedding of the progress bookkeeping of `_download_file`'s chunk
loop: fold over the delivered chunk sizes with the running byte count and
`last_logged` (initially `-1`); when the total is non-zero, compute
`percent = int(downloaded / total * 100)` (modelled exactly as the
rational floor `downloaded * 100 / total`) and `bucket = percent // 10`,
and emit the bucket exactly when it exceeds `last_logged`, which is then
set to it. Returns the emitted buckets in order. -/
def dlLoop (total : Nat) : List (List Nat) → Nat → Int → List Int
  | [], _, _ => []
  | c :: rest, downloaded, lastLogged =>
    let d := downloaded + c.length
    if total ≠ 0 then
      let bucket : Int := (((d * 100) / total : Nat) : Int) / 10
      if lastLogged < bucket then bucket :: dlLoop total rest d bucket
      else dlLoop total rest d lastLogged
    else dlLoop total rest d lastLogged

/-- The progress log lines of one transfer, as `_download_file` formats
them (the bucket times ten, a percent sign). -/
def progressLogs (r : Response) : List Ev :=
  (dlLoop r.totalHeader r.chunks 0 (-1)).map fun b =>
    Ev.log ("Downloading: " ++ toString (b * 10) ++ "%")

/-- Embedding of `_download_first_available(urls, dest)` over a network
oracle `resp` mapping each URL to its response (`Except.error` = `urlopen`
itself raised, the destination file is untouched). For each URL in order:
open the connection; a successful open truncates the destination
(`open(dest, "wb")`) and writes the delivered chunks, so the destination
content becomes exactly their concatenation even when the transfer then
raises; any exception is logged and the next URL tried; after an
exception-free transfer the function returns `true` iff the destination
exists with size greater than zero, and otherwise tries the next URL.
Returns (success, destination content — `none` meaning the file does not
exist, event trace). -/
def download_first_available (resp : String → Except String Response) :
    List String → Option (List Nat) → Bool × Option (List Nat) × List Ev
  | [], dest => (false, dest, [])
  | url :: rest, dest =>
    match resp url with
    | Except.error e =>
      let next := download_first_available resp rest dest
      (next.1, next.2.1,
        Ev.net url :: Ev.log ("Download failed: " ++ url ++ " (" ++ e ++ ")") :: next.2.2)
    | Except.ok r =>
      let d2 := some r.chunks.flatten
      if r.raises then
        let next := download_first_available resp rest d2
        (next.1, next.2.1,
          (Ev.net url :: progressLogs r)
            ++ Ev.log ("Download failed: " ++ url ++ " (" ++ r.excMsg ++ ")") :: next.2.2)
      else if 0 < r.chunks.flatten.length then (true, d2, Ev.net url :: progressLogs r)
      else
        let next := download_first_available resp rest d2
        (next.1, next.2.1, (Ev.net url :: progressLogs r) ++ next.2.2)

/-- A filesystem fragment: for each path, `none` when the file does not
exist, `some mode` its permission bits otherwise. -/
def FS : Type := String → Option Nat

/-- Embedding of `zipfile.ZipFile(...).extractall(TOOLS_DIR)` on a
well-formed archive: each archive entry (relative path, mode) is written
over the filesystem in archive order. -/
def extractAll (entries : List (String × Nat)) (fs : FS) : FS :=
  entries.foldl (fun f pm => fun q => if q = pm.1 then some pm.2 else f q) fs

/-- Embedding of one `tool.chmod(tool.stat().st_mode | 0o111)` step of
`_ensure_executable`, guarded by `tool.exists()`: when the path exists its
mode gains the three execute bits, otherwise nothing happens. -/
def chmodExec (f : FS) (p : String) : FS :=
  match f p with
  | some m => fun q => if q = p then some (m ||| 0o111) else f q
  | none => f

/-- Embedding of `_ensure_executable()`: the chmod step for adb, then for
fastboot. -/
def ensure_executable (f : FS) : FS :=
  chmodExec (chmodExec f adbPath) fastbootPath

/-- A downloaded platform-tools archive: well-formed with its entry list,
or malformed (`zipfile.BadZipFile` on open, before anything is
extracted). -/
inductive Archive where
  | good (entries : List (String × Nat))
  | bad

/-- Embedding of the install portion of `_download_platform_tools` (after
a successful download): log the extracting line; a `BadZipFile` logs the
corruption line and returns without touching modes; otherwise extract,
run `_ensure_executable` and log completion. The boolean records whether
the install ran to completion. -/
def install (f : FS) (a : Archive) : Bool × FS × List Ev :=
  match a with
  | Archive.bad =>
    (false, f,
      [Ev.log "Extracting platform-tools...",
       Ev.log "Downloaded platform-tools zip is corrupted."])
  | Archive.good entries =>
    (true, ensure_executable (extractAll entries f),
      [Ev.log "Extracting platform-tools...", Ev.log "Platform-tools extracted."])

/-- A URL whose attempt fails: either `urlopen` itself raises, or the
connection opens but the transfer raises mid-stream. -/
def urlFails (resp : String → Except String Response) (u : String) : Prop :=
  (∃ e, resp u = Except.error e) ∨ ∃ r, resp u = Except.ok r ∧ r.raises = true

/-- A concrete world in which every path exists and every process prints
fixed output with a non-zero exit code. -/
def wAll : World where
  fileExists := fun _ => true
  proc := fun _ => { stdout := "out ", stderr := " err", exitCode := 3 }

/-- A concrete network oracle whose every connection opens, delivers one
byte 9 and then raises mid-transfer. -/
def respCex : String → Except String Response := fun _ =>
  Except.ok { chunks := [[9]], raises := true, excMsg := "connection reset", totalHeader := 0 }

/-- The spawn trace distributes over trace concatenation. -/
theorem spawns_append (a b : List Ev) : spawns (a ++ b) = spawns a ++ spawns b := by
  simp [spawns]

/-- A log line contributes nothing to the spawn trace. -/
theorem spawns_log_cons (m : String) (t : List Ev) :
    spawns (Ev.log m :: t) = spawns t := by
  simp [spawns]

/-- When fastboot exists, `_fastboot_command args` spawns exactly one
process, with argument vector fastboot followed by `args`. -/
theorem fastboot_command_spawns (w : World) (args : List String)
    (h : w.fileExists fastbootPath = true) :
    spawns (fastboot_command w args) = [fastbootPath :: args] := by
  simp only [fastboot_command, h, if_true, runCmd]
  split <;> simp [spawns]

/-- C2: in every execution of the wipe action in which the confirmation
answer is negative, nothing happens at all — in particular no wipe
subprocess is ever spawned, so the destructive `fastboot -w` command is
never issued without a prior affirmative confirmation. -/
theorem C2_wipe_requires_confirmation :
    ∀ w : World, fastboot_wipe w false = [] ∧ spawns (fastboot_wipe w false) = [] :=
  fun _ => ⟨rfl, rfl⟩

/-- C5: when the subprocess spawn succeeds, `_run_cmd` returns the
concatenation of the process's stdout followed by its stderr with
surrounding whitespace trimmed; and the returned value depends only on
(stdout, stderr) — two worlds whose processes agree on those but may
differ in exit status yield the same result. -/
theorem C5_run_returns_trimmed_output (w : World) (exe : String) (args : List String)
    (h : w.fileExists exe = true) :
    (runCmd w (exe :: args)).1
        = pyStrip ((w.proc (exe :: args)).stdout ++ (w.proc (exe :: args)).stderr)
    ∧ ∀ w' : World, w'.fileExists exe = w.fileExists exe →
        (w'.proc (exe :: args)).stdout = (w.proc (exe :: args)).stdout →
        (w'.proc (exe :: args)).stderr = (w.proc (exe :: args)).stderr →
        (runCmd w' (exe :: args)).1 = (runCmd w (exe :: args)).1 := by
  refine ⟨by simp [runCmd, h], ?_⟩
  intro w' hfe hso hse
  simp [runCmd, h, hfe.trans h, hso, hse]

/-- C5 witness: the theorem applied in the concrete world `wAll` at the
command `["x"]`, the existence hypothesis discharged by `rfl`. -/
theorem C5_run_returns_trimmed_output_witness :
    wAll.fileExists "x" = true
    ∧ (runCmd wAll ["x"]).1
        = pyStrip ((wAll.proc ["x"]).stdout ++ (wAll.proc ["x"]).stderr) :=
  ⟨rfl, (C5_run_returns_trimmed_output wAll "x" [] rfl).1⟩

/-- C6: invoking a command whose executable path does not exist returns
the empty string and spawns no subprocess (the embedding is a total
function, so it cannot raise); and the adb wrapper, which checks existence
first, likewise spawns nothing when adb is missing. -/
theorem C6_run_missing_executable :
    (∀ (w : World) (exe : String) (args : List String), w.fileExists exe = false →
        (runCmd w (exe :: args)).1 = "" ∧ spawns (runCmd w (exe :: args)).2 = [])
    ∧ ∀ (w : World) (args : List String), w.fileExists adbPath = false →
        adb_command w args = [Ev.log "ADB not found. Download platform-tools first."]
        ∧ spawns (adb_command w args) = [] := by
  constructor
  · intro w exe args h
    refine ⟨by simp [runCmd, h], ?_⟩
    simp [runCmd, h, spawns]
  · intro w args h
    refine ⟨by simp [adb_command, h], ?_⟩
    simp [adb_command, h, spawns]

/-- One step of the flash loop: the trace of `_flash_images` on a
non-empty selection is the head entry's log line and fastboot call,
followed by the trace on the tail. -/
theorem flash_images_cons (w : World) (hd : String × String) (tl : List (String × String)) :
    flash_images w (hd :: tl)
      = (Ev.log ("Flashing " ++ hd.1 ++ " from " ++ hd.2 ++ "...")
          :: fastboot_command w ["flash", hd.1, hd.2]) ++ flash_images w tl := by
  simp [flash_images]

/-- When fastboot exists, `_flash_images` spawns one process per selection
entry, in selection order, each with arguments flash, partition, path. -/
theorem flash_images_spawns (w : World) (h : w.fileExists fastbootPath = true) :
    ∀ sels : List (String × String),
      spawns (flash_images w sels)
        = sels.map fun pr => fastbootPath :: ["flash", pr.1, pr.2]
  | [] => rfl
  | hd :: tl => by
    rw [flash_images_cons, List.cons_append, spawns_log_cons, spawns_append,
      fastboot_command_spawns w _ h, flash_images_spawns w h tl, List.map_cons]
    rfl

/-- The last event of every `_flash_images` trace is the completion log
line, whatever the individual invocations did. -/
theorem flash_images_getLast (w : World) (sels : List (String × String)) :
    (flash_images w sels).getLast? = some (Ev.log "Flash sequence complete.") := by
  rw [flash_images, List.getLast?_concat]

/-- C1: with the fastboot executable present, a flash action on a
non-empty selection of `n` entries spawns exactly `n` fastboot processes,
one per entry in order with arguments flash, partition, path — the spawn
trace is the same for every process oracle, so each entry is attempted
regardless of the previous invocation's output or exit status — and the
final event is the completion log line; an empty selection is rejected
with a message box before any subprocess is spawned. -/
theorem C1_flash_invocations (w : World) (boot recovery system vendor : String)
    (h : w.fileExists fastbootPath = true) :
    (build_selections boot recovery system vendor ≠ [] →
        spawns (flash_selected w boot recovery system vendor)
            = (build_selections boot recovery system vendor).map
                (fun pr => fastbootPath :: ["flash", pr.1, pr.2])
          ∧ (flash_selected w boot recovery system vendor).getLast?
              = some (Ev.log "Flash sequence complete."))
    ∧ (build_selections boot recovery system vendor = [] →
        flash_selected w boot recovery system vendor
            = [Ev.msgbox "Select at least one image to flash."]
          ∧ spawns (flash_selected w boot recovery system vendor) = []) := by
  constructor
  · intro hne
    constructor
    · rw [flash_selected, if_neg hne]
      exact flash_images_spawns w h _
    · rw [flash_selected, if_neg hne]
      exact flash_images_getLast w _
  · intro he
    rw [flash_selected, if_pos he]
    exact ⟨rfl, rfl⟩

/-- C1 witness: the theorem applied in the world `wAll` to the selection
boot ↦ /a.img, recovery ↦ /b.img (system and vendor left blank): exactly
two fastboot invocations, in order, and the completion log line last. -/
theorem C1_flash_invocations_witness :
    wAll.fileExists fastbootPath = true
    ∧ build_selections "/a.img" "/b.img" "" "" ≠ []
    ∧ spawns (flash_selected wAll "/a.img" "/b.img" "" "")
        = [[fastbootPath, "flash", "boot", "/a.img"],
           [fastbootPath, "flash", "recovery", "/b.img"]]
    ∧ (flash_selected wAll "/a.img" "/b.img" "" "").getLast?
        = some (Ev.log "Flash sequence complete.") := by
  have hne : build_selections "/a.img" "/b.img" "" "" ≠ [] := by decide
  have h2 := (C1_flash_invocations wAll "/a.img" "/b.img" "" "" rfl).1 hne
  refine ⟨rfl, hne, ?_, h2.2⟩
  rw [h2.1]
  decide

/-- C10: the per-call flash iteration order is fixed — the selection list
is exactly the fixed sequence boot, recovery, system, vendor of stripped
entry texts restricted to the non-empty ones, and with fastboot present
the flash loop spawns its processes in exactly that order. -/
theorem C10_flash_order (w : World) (boot recovery system vendor : String)
    (h : w.fileExists fastbootPath = true) :
    build_selections boot recovery system vendor
        = ([("boot", pyStrip boot), ("recovery", pyStrip recovery),
            ("system", pyStrip system), ("vendor", pyStrip vendor)].filter
             fun pr => pr.2 ≠ "")
    ∧ spawns (flash_images w (build_selections boot recovery system vendor))
        = (build_selections boot recovery system vendor).map
            fun pr => fastbootPath :: ["flash", pr.1, pr.2] := by
  constructor
  · by_cases hb : pyStrip boot = "" <;> by_cases hr : pyStrip recovery = "" <;>
      by_cases hs : pyStrip system = "" <;> by_cases hv : pyStrip vendor = "" <;>
      simp [build_selections, hb, hr, hs, hv]
  · exact flash_images_spawns w h _

/-- C10 witness: the theorem applied in the world `wAll` with recovery and
vendor selected: the selection keeps the fixed order recovery before
vendor, and the two spawns follow it. -/
theorem C10_flash_order_witness :
    wAll.fileExists fastbootPath = true
    ∧ build_selections "" " /r.img " "" "/v.img"
        = [("recovery", "/r.img"), ("vendor", "/v.img")]
    ∧ spawns (flash_images wAll (build_selections "" " /r.img " "" "/v.img"))
        = [[fastbootPath, "flash", "recovery", "/r.img"],
           [fastbootPath, "flash", "vendor", "/v.img"]] := by
  have h2 := C10_flash_order wAll "" " /r.img " "" "/v.img" rfl
  refine ⟨rfl, by decide, ?_⟩
  rw [h2.2]
  decide

/-- Characterization of the prefix test: `isPrefList n h` holds exactly
when `h` extends `n`. -/
theorem isPrefList_iff (n : List Char) : ∀ h : List Char,
    isPrefList n h = true ↔ ∃ t, h = n ++ t := by
  induction n with
  | nil => intro h; simp [isPrefList]
  | cons a as ih =>
    intro h
    cases h with
    | nil =>
      simp [isPrefList]
    | cons b bs =>
      simp only [isPrefList, Bool.and_eq_true, decide_eq_true_eq, ih, List.cons_append,
        List.cons.injEq]
      constructor
      · rintro ⟨hab, t, ht⟩
        exact ⟨t, hab.symm, ht⟩
      · rintro ⟨t, hba, ht⟩
        exact ⟨hba.symm, t, ht⟩

/-- Characterization of the substring test: `hasSubstr n h` holds exactly
when `h` splits as some prefix, then `n`, then some suffix — the semantics
of Python's `n in h`. -/
theorem hasSubstr_iff (n : List Char) : ∀ h : List Char,
    hasSubstr n h = true ↔ ∃ pre post, h = pre ++ n ++ post := by
  intro h
  induction h with
  | nil =>
    simp only [hasSubstr, isPrefList_iff]
    constructor
    · rintro ⟨t, ht⟩
      exact ⟨[], t, ht⟩
    · rintro ⟨pre, post, hp⟩
      have h2 := List.append_eq_nil.mp (List.append_eq_nil.mp hp.symm).1
      exact ⟨[], by simp [h2.2]⟩
  | cons c t ih =>
    simp only [hasSubstr, Bool.or_eq_true, isPrefList_iff, ih]
    constructor
    · rintro (⟨post, hp⟩ | ⟨pre, post, hp⟩)
      · exact ⟨[], post, by simpa using hp⟩
      · exact ⟨c :: pre, post, by simp [hp]⟩
    · rintro ⟨pre, post, hp⟩
      cases pre with
      | nil => exact Or.inl ⟨post, by simpa using hp⟩
      | cons c2 pre2 =>
        simp only [List.cons_append, List.cons.injEq] at hp
        exact Or.inr ⟨pre2, post, hp.2⟩

/-- C7: refresh-status classifies the two raw outputs with the two
heuristics; the adb heuristic reports a connected device exactly when the
raw output contains the tab-then-device substring, and otherwise reports
no device; the fastboot heuristic reports a connected device exactly when
the stripped output is non-empty; and the header-only adb output with no
device line classifies as not connected. -/
theorem C7_status_classification :
    (∀ w : World, refresh_devices w
        = (adb_status_of
             (if w.fileExists adbPath then (runCmd w [adbPath, "devices"]).1 else ""),
           fastboot_status_of
             (if w.fileExists fastbootPath then (runCmd w [fastbootPath, "devices"]).1 else "")))
    ∧ (∀ s : String, adb_status_of s = "Device connected"
        ↔ ∃ pre post, s.data = pre ++ "\tdevice".data ++ post)
    ∧ (∀ s : String, adb_status_of s = "No device"
        ↔ ¬ ∃ pre post, s.data = pre ++ "\tdevice".data ++ post)
    ∧ (∀ s : String, fastboot_status_of s = "Device connected" ↔ pyStrip s ≠ "")
    ∧ (∀ s : String, fastboot_status_of s = "No device" ↔ pyStrip s = "")
    ∧ adb_status_of "List of devices attached\n" = "No device"
    ∧ fastboot_status_of "" = "No device" := by
  have hne : ("Device connected" : String) ≠ "No device" := by decide
  refine ⟨fun w => rfl, ?_, ?_, ?_, ?_, by decide, by decide⟩
  · intro s
    rw [← hasSubstr_iff]
    unfold adb_status_of
    rcases hs : hasSubstr ("\tdevice".data) s.data with _ | _ <;> simp [hs, hne]
  · intro s
    rw [← hasSubstr_iff]
    unfold adb_status_of
    rcases hs : hasSubstr ("\tdevice".data) s.data with _ | _ <;>
      simp [hs, hne.symm, hne]
  · intro s
    unfold fastboot_status_of
    by_cases hs : pyStrip s = "" <;> simp [hs, hne]
  · intro s
    unfold fastboot_status_of
    by_cases hs : pyStrip s = "" <;> simp [hs, hne.symm]

/-- C3 helper: the URL loop's success flag does not depend on the prior
destination content, and holds exactly when some candidate's transfer
completes without exception and delivers at least one byte (so the freshly
written file exists with positive size). -/
theorem download_success_iff (resp : String → Except String Response) :
    ∀ (urls : List String) (dest : Option (List Nat)),
      (download_first_available resp urls dest).1 = true
        ↔ ∃ u ∈ urls, ∃ r, resp u = Except.ok r ∧ r.raises = false
            ∧ 0 < r.chunks.flatten.length := by
  intro urls
  induction urls with
  | nil => intro dest; simp [download_first_available]
  | cons u rest ih =>
    intro dest
    cases hr : resp u with
    | error e =>
      simp only [download_first_available, hr]
      rw [ih]
      simp [List.exists_mem_cons_iff, hr]
    | ok r =>
      rcases hb : r.raises with _ | _
      · by_cases hl : 0 < r.chunks.flatten.length
        · simp only [download_first_available, hr, hb, if_false, Bool.false_eq_true,
            if_pos hl]
          simp only [List.exists_mem_cons_iff, hr]
          constructor
          · intro _
            exact Or.inl ⟨r, rfl, hb, hl⟩
          · intro _
            trivial
        · simp only [download_first_available, hr, hb, Bool.false_eq_true, if_false,
            if_neg hl]
          rw [ih]
          simp only [List.exists_mem_cons_iff, hr]
          constructor
          · intro hrest
            exact Or.inr hrest
          · rintro (⟨r2, hr2, _, hl2⟩ | hrest)
            · cases (Except.ok.inj hr2 : r = r2); exact absurd hl2 hl
            · exact hrest
      · simp only [download_first_available, hr, hb, if_true]
        rw [ih]
        simp only [List.exists_mem_cons_iff, hr]
        constructor
        · intro hrest
          exact Or.inr hrest
        · rintro (⟨r2, hr2, hb2, _⟩ | hrest)
          · cases (Except.ok.inj hr2 : r = r2); simp [hb] at hb2
          · exact hrest

/-- C3: the downloader is a total function (so a call never raises); on an
empty candidate sequence it returns failure immediately, leaving the
destination untouched and doing no I/O (its event trace is empty); and it
returns success exactly when, for some candidate URL, the transfer
completes without exception leaving the destination in existence with
size greater than zero — so all candidates exhausted without such a URL
yields failure. -/
theorem C3_fetch_success_and_empty :
    (∀ (resp : String → Except String Response) (dest : Option (List Nat)),
        download_first_available resp [] dest = (false, dest, []))
    ∧ (∀ resp urls dest,
        (download_first_available resp urls dest).1 = true
          ↔ ∃ u ∈ urls, ∃ r, resp u = Except.ok r ∧ r.raises = false
              ∧ 0 < r.chunks.flatten.length)
    ∧ ∀ resp urls dest,
        (download_first_available resp urls dest).1 = false
          ↔ ¬ ∃ u ∈ urls, ∃ r, resp u = Except.ok r ∧ r.raises = false
              ∧ 0 < r.chunks.flatten.length := by
  refine ⟨fun _ _ => rfl, fun resp urls dest => download_success_iff resp urls dest, ?_⟩
  intro resp urls dest
  rw [← download_success_iff resp urls dest]
  cases h : (download_first_available resp urls dest).1 <;> simp [h]

/-- C4 counterexample: with the destination holding byte 7, one candidate
URL whose connection opens, delivers byte 9 and then raises leaves the
destination holding byte 9 — not the content it had before the failing
attempt, refuting atomicity. -/
theorem C4_counterexample_partial_write :
    (download_first_available respCex ["u1"] (some [7])).2.1 = some [9]
    ∧ ¬ (download_first_available respCex ["u1"] (some [7])).2.1 = some [7] := by
  constructor <;> decide

/-- C4 amended: the downloader writes straight to the destination, not
atomically. An attempt whose connection fails before opening leaves the
destination as it was; an attempt that raises mid-transfer leaves the
destination truncated to the partial content received from the failing
URL; and after a first failing URL and a second URL that succeeds, the
destination holds exactly the second URL's content and the fetch
succeeds. -/
theorem C4_amended_direct_write :
    (∀ (resp : String → Except String Response) (u : String) rest dest e,
        resp u = Except.error e →
        (download_first_available resp (u :: rest) dest).2.1
          = (download_first_available resp rest dest).2.1)
    ∧ (∀ (resp : String → Except String Response) (u : String) rest dest r,
        resp u = Except.ok r → r.raises = true →
        (download_first_available resp (u :: rest) dest).2.1
          = (download_first_available resp rest (some r.chunks.flatten)).2.1)
    ∧ ∀ (resp : String → Except String Response) (u1 u2 : String) dest r2,
        urlFails resp u1 →
        resp u2 = Except.ok r2 → r2.raises = false → 0 < r2.chunks.flatten.length →
        (download_first_available resp [u1, u2] dest).1 = true
          ∧ (download_first_available resp [u1, u2] dest).2.1
              = some r2.chunks.flatten := by
  refine ⟨?_, ?_, ?_⟩
  · intro resp u rest dest e hr
    simp only [download_first_available, hr]
  · intro resp u rest dest r hr hb
    simp only [download_first_available, hr, hb, if_true]
  · intro resp u1 u2 dest r2 hf hr2 hb2 hl2
    have step2 : ∀ d : Option (List Nat),
        (download_first_available resp [u2] d).1 = true
          ∧ (download_first_available resp [u2] d).2.1 = some r2.chunks.flatten := by
      intro d
      simp only [download_first_available, hr2, hb2, Bool.false_eq_true, if_false,
        if_pos hl2]
      exact ⟨trivial, trivial⟩
    rcases hf with ⟨e, hr1⟩ | ⟨r1, hr1, hb1⟩
    · simp only [download_first_available, hr1]
      exact step2 dest
    · simp only [download_first_available, hr1, hb1, if_true]
      exact step2 _

/-- Every bucket the progress loop emits exceeds the `last_logged` value
the loop started from: emission happens only on crossing a new bucket. -/
theorem dlLoop_mem_gt (total : Nat) :
    ∀ (chunks : List (List Nat)) (d : Nat) (l : Int), ∀ x ∈ dlLoop total chunks d l, l < x := by
  intro chunks
  induction chunks with
  | nil => intro d l x hx; simp [dlLoop] at hx
  | cons c rest ih =>
    intro d l x hx
    simp only [dlLoop] at hx
    by_cases ht : total ≠ 0
    · rw [if_pos ht] at hx
      by_cases hlt : l < (((d + c.length) * 100 / total : Nat) : Int) / 10
      · rw [if_pos hlt] at hx
        rcases List.mem_cons.mp hx with h1 | h2
        · exact h1 ▸ hlt
        · exact lt_trans hlt (ih _ _ x h2)
      · rw [if_neg hlt] at hx
        exact ih _ _ x hx
    · rw [if_neg ht] at hx
      exact ih _ _ x hx

/-- The bucket sequence the progress loop emits is strictly increasing,
whatever the chunk sizes and starting state. -/
theorem dlLoop_pairwise (total : Nat) :
    ∀ (chunks : List (List Nat)) (d : Nat) (l : Int),
      List.Pairwise (fun a b => a < b) (dlLoop total chunks d l) := by
  intro chunks
  induction chunks with
  | nil => intro d l; simp [dlLoop]
  | cons c rest ih =>
    intro d l
    simp only [dlLoop]
    by_cases ht : total ≠ 0
    · rw [if_pos ht]
      by_cases hlt : l < (((d + c.length) * 100 / total : Nat) : Int) / 10
      · rw [if_pos hlt]
        exact List.Pairwise.cons (fun x hx => dlLoop_mem_gt total rest _ _ x hx) (ih _ _)
      · rw [if_neg hlt]
        exact ih _ _
    · rw [if_neg ht]
      exact ih _ _

/-- C8: within a single download whose server reports a total content
length, the emitted 10%-bucket values are strictly increasing: a bucket is
announced only when newly crossed, the sequence is monotonic, and no
bucket value is ever announced twice. -/
theorem C8_progress_buckets (total : Nat) (chunks : List (List Nat)) (h : 0 < total) :
    List.Pairwise (fun a b => a < b) (dlLoop total chunks 0 (-1)) :=
  dlLoop_pairwise total chunks 0 (-1)

/-- C8 witness: the theorem applied to a 10-byte download arriving in
three chunks; the emitted buckets are concretely strictly increasing. -/
theorem C8_progress_buckets_witness :
    0 < 10
    ∧ List.Pairwise (fun a b : Int => a < b) (dlLoop 10 [[1, 2, 3], [4, 5], [6]] 0 (-1)) :=
  ⟨by decide, C8_progress_buckets 10 [[1, 2, 3], [4, 5], [6]] (by decide)⟩

/-- The chmod step at its own path adds the execute bits to the known
mode. -/
theorem chmodExec_self (f : FS) (p : String) (m : Nat) (h : f p = some m) :
    chmodExec f p p = some (m ||| 0o111) := by
  simp [chmodExec, h]

/-- The chmod step leaves every other path alone. -/
theorem chmodExec_other (f : FS) (p q : String) (h : q ≠ p) : chmodExec f p q = f q := by
  cases hf : f p with
  | none => simp [chmodExec, hf]
  | some m => simp [chmodExec, hf, h]

/-- C9: installing a well-formed archive completes, and each of the two
expected executables that extraction put in place (with some mode `m`)
ends up present with mode `m ||| 0o111` — all three execute bits set and
no previously set permission bit removed; installing a malformed archive
logs the corruption message, reports failure, and performs no
execute-bit step (the filesystem is returned unchanged). -/
theorem C9_install_exec_bits :
    (∀ (f : FS) (entries : List (String × Nat)) (p : String),
        (p = adbPath ∨ p = fastbootPath) → ∀ m : Nat, extractAll entries f p = some m →
        (install f (Archive.good entries)).1 = true
        ∧ (install f (Archive.good entries)).2.1 p = some (m ||| 0o111)
        ∧ (m ||| 0o111) &&& 0o111 = 0o111
        ∧ ∀ i : Nat, m.testBit i = true → (m ||| 0o111).testBit i = true)
    ∧ ∀ g : FS, install g Archive.bad
        = (false, g,
           [Ev.log "Extracting platform-tools...",
            Ev.log "Downloaded platform-tools zip is corrupted."]) := by
  constructor
  · intro f entries p hp m hm
    have hne : adbPath ≠ fastbootPath := by decide
    refine ⟨rfl, ?_, ?_, ?_⟩
    · show ensure_executable (extractAll entries f) p = some (m ||| 0o111)
      rcases hp with h1 | h1 <;> subst h1
      · rw [ensure_executable, chmodExec_other _ _ _ hne, chmodExec_self _ _ _ hm]
      · rw [ensure_executable,
          chmodExec_self _ _ m ((chmodExec_other _ _ _ hne.symm).trans hm)]
    · apply Nat.eq_of_testBit_eq
      intro i
      rw [Nat.testBit_land, Nat.testBit_lor]
      cases hmi : m.testBit i <;> cases hci : (0o111 : Nat).testBit i <;> simp [hmi, hci]
    · intro i hi
      simp [Nat.testBit_lor, hi]
  · intro g
    rfl

end PhoneFlasher
